import Mathlib

/-
Verification development for the dev-events repository (Event and Booking
document schemas, a slug generator, a date normalizer, and a cached
database-connection helper).

The TypeScript source is shallowly embedded: pure string utilities become
Lean functions over `List Char`, the mongoose save lifecycle becomes an
explicit state-passing function over a list-based store, and the
connection cache becomes an explicit state record.  Behavior of the
JavaScript runtime and of the mongoose library is modelled where the
source calls into it; every such modelling decision is recorded in the
doc comment of the definition that makes it.
-/

namespace DevEvents

/-! ## Character-level model of the JavaScript string runtime

The source operates on JavaScript strings.  We model the operations it
uses (`toLowerCase`, `trim`, regex character classes) on `List Char`.
Unicode case mapping is modelled on the ASCII range: the slug pipeline
removes every character outside the regex class `[^\w\s-]` anyway, and
`\w` in a JavaScript regex without the `u` flag is exactly
`[A-Za-z0-9_]`, so the ASCII model agrees with the runtime on every
character that can reach the output. -/

/-- Model of the regex class `\s` (and of the character set removed by
`String.prototype.trim`): the common JavaScript whitespace characters. -/
def isJsSpace (c : Char) : Bool :=
  c == ' ' || c == '\t' || c == '\n' || c == '\r' ||
  c == '\x0b' || c == '\x0c' || c == '\u00A0' || c == '\uFEFF'

/-- Model of the regex class `\w` in a JavaScript regex without the `u`
flag: `[A-Za-z0-9_]`. -/
def isWordChar (c : Char) : Bool :=
  (65 ≤ c.toNat && c.toNat ≤ 90) || (97 ≤ c.toNat && c.toNat ≤ 122) ||
  (48 ≤ c.toNat && c.toNat ≤ 57) || c.toNat == 95

/-- ASCII model of `String.prototype.toLowerCase`: map `A`..`Z` to
`a`..`z`, leave every other character unchanged. -/
def jsToLower (c : Char) : Char :=
  if 65 ≤ c.toNat && c.toNat ≤ 90 then Char.ofNat (c.toNat + 32) else c

/-- Drop the trailing run of characters satisfying `p`. -/
def dropTrailing (p : Char → Bool) : List Char → List Char
  | [] => []
  | c :: rest =>
    match dropTrailing p rest with
    | [] => if p c then [] else [c]
    | out => c :: out

/-- Model of `String.prototype.trim`: drop leading and trailing
whitespace. -/
def trimList (l : List Char) : List Char :=
  dropTrailing isJsSpace (l.dropWhile isJsSpace)

/-- Model of `String.prototype.trim` on strings. -/
def jsTrim (s : String) : String :=
  String.mk (trimList s.data)

/-- Model of `str.replace(/p+/g, r)` for a character class `p`: every
maximal run of characters satisfying `p` is replaced by the single
character `r`. -/
def collapseRuns (p : Char → Bool) (r : Char) : List Char → List Char
  | [] => []
  | [c] => if p c then [r] else [c]
  | c :: c' :: rest =>
    if p c then
      if p c' then collapseRuns p r (c' :: rest)
      else r :: collapseRuns p r (c' :: rest)
    else c :: collapseRuns p r (c' :: rest)

/-- Embedding of `generateSlug` (src/unnamed/part_000, lines 164-172):
lowercase, trim, remove `[^\w\s-]`, replace `\s+` runs by `-`, collapse
`-+` runs to a single `-`, strip leading and trailing hyphens
(`/^-+|-+$/g`). -/
def generateSlug (title : String) : String :=
  String.mk
    (dropTrailing (fun c => c == '-')
      (List.dropWhile (fun c => c == '-')
        (collapseRuns (fun c => c == '-') '-'
          (collapseRuns isJsSpace '-'
            (List.filter (fun c => isWordChar c || isJsSpace c || c == '-')
              (trimList (title.data.map jsToLower)))))))

example : generateSlug "Hello World" = "hello-world" := by decide
example : generateSlug "  --Big  Event!!--  " = "big-event" := by decide
example : generateSlug "a_b" = "a_b" := by decide
example : generateSlug "!!!" = "" := by decide
example : generateSlug "hello world!" = "hello-world" := by decide

/-! ## Model of the ECMAScript `Date` fragment used by `normalizeDate`

`normalizeDate` calls `new Date(string)` and
`toISOString().split("T")[0]`.  We model the portion of `Date` parsing
that the ECMAScript standard pins down: the Date Time String Format
`YYYY-MM-DD[THH:MM[:SS](Z|+HH:MM|-HH:MM)]` with four-digit years and
in-range fields.  A date-only string denotes midnight UTC; a date-time
string denotes the written wall-clock time shifted by the written UTC
offset.  Date-time strings without a UTC offset denote host-local time
and other accepted spellings are host heuristics, so they are outside
the deterministic model.  `toISOString` formats the instant in UTC,
which is where an offset can move the printed day off the written one. -/

/-- Proleptic Gregorian calendar date as written (year 0-9999 in this
model, since the modelled string format has four-digit years). -/
structure CivilDate where
  year : Nat
  month : Nat
  day : Nat
deriving DecidableEq, Repr

/-- Gregorian leap-year rule. -/
def isLeapYear (y : Nat) : Bool :=
  (y % 4 == 0 && y % 100 != 0) || y % 400 == 0

/-- Days in a month of the Gregorian calendar. -/
def daysInMonth (y m : Nat) : Nat :=
  if m == 2 then (if isLeapYear y then 29 else 28)
  else if m == 4 || m == 6 || m == 9 || m == 11 then 30
  else 31

/-- Validity of a written calendar date. -/
def validDate (y m d : Nat) : Bool :=
  1 ≤ m && m ≤ 12 && 1 ≤ d && d ≤ daysInMonth y m

/-- Next calendar day. -/
def succDay (c : CivilDate) : CivilDate :=
  if c.day < daysInMonth c.year c.month then ⟨c.year, c.month, c.day + 1⟩
  else if c.month < 12 then ⟨c.year, c.month + 1, 1⟩
  else ⟨c.year + 1, 1, 1⟩

/-- Previous calendar day. -/
def predDay (c : CivilDate) : CivilDate :=
  if 1 < c.day then ⟨c.year, c.month, c.day - 1⟩
  else if 1 < c.month then ⟨c.year, c.month - 1, daysInMonth c.year (c.month - 1)⟩
  else ⟨c.year - 1, 12, 31⟩

/-- Shift a calendar date by a signed number of days. -/
def addDays (c : CivilDate) (n : Int) : CivilDate :=
  if 0 ≤ n then succDay^[n.toNat] c else predDay^[(-n).toNat] c

/-- Instant denoted by a parsed date string: the written calendar date
together with the signed millisecond offset of the instant from that
date's midnight UTC (written time of day minus written UTC offset). -/
structure JsInstant where
  date : CivilDate
  ms : Int
deriving DecidableEq, Repr

/-- Calendar date of the instant in UTC, the date that `toISOString`
prints. -/
def utcDate (i : JsInstant) : CivilDate :=
  addDays i.date (Int.fdiv i.ms 86400000)

/-- Test for an ASCII digit. -/
def isDigitChar (c : Char) : Bool :=
  48 ≤ c.toNat && c.toNat ≤ 57

/-- Numeric value of an ASCII digit. -/
def digitVal (c : Char) : Nat :=
  c.toNat - 48

/-- ASCII digit with a given value. -/
def digitChar (k : Nat) : Char :=
  Char.ofNat (48 + k)

/-- Parse the optional seconds field and the mandatory UTC offset of a
modelled date-time string, returning milliseconds of the day and the
offset in minutes. -/
def parseOffset : List Char → Option Int
  | ['Z'] => some 0
  | ['+', o1, o2, ':', p1, p2] =>
    if isDigitChar o1 && isDigitChar o2 && isDigitChar p1 && isDigitChar p2 then
      let oh := 10 * digitVal o1 + digitVal o2
      let om := 10 * digitVal p1 + digitVal p2
      if oh ≤ 23 && om ≤ 59 then some (Int.ofNat (oh * 60 + om)) else none
    else none
  | ['-', o1, o2, ':', p1, p2] =>
    if isDigitChar o1 && isDigitChar o2 && isDigitChar p1 && isDigitChar p2 then
      let oh := 10 * digitVal o1 + digitVal o2
      let om := 10 * digitVal p1 + digitVal p2
      if oh ≤ 23 && om ≤ 59 then some (-(Int.ofNat (oh * 60 + om))) else none
    else none
  | _ => none

/-- Parse the time-of-day part `HH:MM[:SS]` followed by a UTC offset,
returning milliseconds since the written midnight and the offset in
minutes. -/
def parseTimePart : List Char → Option (Nat × Int)
  | h1 :: h2 :: ':' :: n1 :: n2 :: tl =>
    if isDigitChar h1 && isDigitChar h2 && isDigitChar n1 && isDigitChar n2 then
      let hh := 10 * digitVal h1 + digitVal h2
      let mm := 10 * digitVal n1 + digitVal n2
      if hh ≤ 23 && mm ≤ 59 then
        match tl with
        | ':' :: s1 :: s2 :: tl2 =>
          if isDigitChar s1 && isDigitChar s2 then
            let ss := 10 * digitVal s1 + digitVal s2
            if ss ≤ 59 then
              (parseOffset tl2).map
                (fun off => ((hh * 3600 + mm * 60 + ss) * 1000, off))
            else none
          else none
        | _ =>
          (parseOffset tl).map (fun off => ((hh * 3600 + mm * 60) * 1000, off))
      else none
    else none
  | _ => none

/-- Model of `new Date(string)` on the specified ISO fragment: a
date-only string is midnight UTC, a date-time string carries its
written UTC offset; out-of-range fields give an invalid date (`none`),
as does any spelling outside the modelled fragment. -/
def jsDateParse (s : String) : Option JsInstant :=
  match s.data with
  | [c1, c2, c3, c4, '-', c5, c6, '-', c7, c8] =>
    if isDigitChar c1 && isDigitChar c2 && isDigitChar c3 && isDigitChar c4 &&
       isDigitChar c5 && isDigitChar c6 && isDigitChar c7 && isDigitChar c8 then
      let y := 1000 * digitVal c1 + 100 * digitVal c2 + 10 * digitVal c3 + digitVal c4
      let m := 10 * digitVal c5 + digitVal c6
      let d := 10 * digitVal c7 + digitVal c8
      if validDate y m d then some ⟨⟨y, m, d⟩, 0⟩ else none
    else none
  | c1 :: c2 :: c3 :: c4 :: '-' :: c5 :: c6 :: '-' :: c7 :: c8 :: 'T' :: rest =>
    if isDigitChar c1 && isDigitChar c2 && isDigitChar c3 && isDigitChar c4 &&
       isDigitChar c5 && isDigitChar c6 && isDigitChar c7 && isDigitChar c8 then
      let y := 1000 * digitVal c1 + 100 * digitVal c2 + 10 * digitVal c3 + digitVal c4
      let m := 10 * digitVal c5 + digitVal c6
      let d := 10 * digitVal c7 + digitVal c8
      if validDate y m d then
        (parseTimePart rest).map
          (fun t => ⟨⟨y, m, d⟩, Int.ofNat t.1 - t.2 * 60000⟩)
      else none
    else none
  | _ => none

/-- Format a calendar date as `YYYY-MM-DD` (the model restricts years to
four digits, which `jsDateParse` guarantees for written dates). -/
def formatDate (c : CivilDate) : String :=
  String.mk
    [digitChar (c.year / 1000), digitChar (c.year / 100 % 10),
     digitChar (c.year / 10 % 10), digitChar (c.year % 10), '-',
     digitChar (c.month / 10), digitChar (c.month % 10), '-',
     digitChar (c.day / 10), digitChar (c.day % 10)]

/-- Model of `dateObj.toISOString().split("T")[0]`: the calendar date of
the instant in UTC, printed as `YYYY-MM-DD`. -/
def toISODatePart (i : JsInstant) : String :=
  formatDate (utcDate i)

/-- Embedding of the regex test `/^\d{4}-\d{2}-\d{2}$/.test(value)`. -/
def isoDateRegexTest (s : String) : Bool :=
  match s.data with
  | [c1, c2, c3, c4, '-', c5, c6, '-', c7, c8] =>
    isDigitChar c1 && isDigitChar c2 && isDigitChar c3 && isDigitChar c4 &&
    isDigitChar c5 && isDigitChar c6 && isDigitChar c7 && isDigitChar c8
  | _ => false

/-- Embedding of `normalizeDate` (src/unnamed/part_000, lines 178-196):
parse with `new Date`; if the date is valid return the UTC date part of
`toISOString`; otherwise fall back to accepting a string that already
matches `/^\d{4}-\d{2}-\d{2}$/` verbatim, and fail on anything else.
The thrown `Invalid date` error is caught by the `catch` block, which
is why the regex fallback also applies to parse failures. -/
def normalizeDate (s : String) : Except String String :=
  match jsDateParse s with
  | some i => .ok (toISODatePart i)
  | none =>
    if isoDateRegexTest s then .ok s
    else .error ("Invalid date format: " ++ s ++
      ". Expected YYYY-MM-DD or valid date string.")

example : normalizeDate "2025-10-21" = .ok "2025-10-21" := by rfl
example : normalizeDate "2025-10-21T01:00:00+05:00" = .ok "2025-10-20" := by rfl
example : normalizeDate "2025-10-21T00:00:00Z" = .ok "2025-10-21" := by rfl
example : normalizeDate "2025-13-45" = .ok "2025-13-45" := by rfl
example : (normalizeDate "not-a-date").isOk = false := by decide

/-! ## Event schema, validators, pre-save hook and save lifecycle -/

/-- Field content of an Event document (src/unnamed/part_000, lines
28-158).  The system-managed timestamps play no role in any claim and
are omitted. -/
structure EventDoc where
  title : String
  slug : String
  description : String
  overview : String
  image : String
  venue : String
  location : String
  date : String
  time : String
  mode : String
  audience : String
  agenda : List String
  organizer : String
  tags : List String
deriving DecidableEq, Repr

/-- Shared shape of the custom validators on required text fields:
`value.trim().length > 0`. -/
def validString (s : String) : Bool :=
  !(trimList s.data).isEmpty

/-- Embedding of the `date` field validator (src/unnamed/part_000,
lines 90-99): the value must match `/^\d{4}-\d{2}-\d{2}$/` and
`new Date(value)` must not be an invalid date. -/
def dateValidatorOk (v : String) : Bool :=
  isoDateRegexTest v && (jsDateParse v).isSome

/-- Embedding of the declared Event field validators: every required
text field non-empty after trim, the date validator, `mode` in its
three-value enumeration, `agenda` and `tags` non-empty arrays.  The
`slug` field declares no validator and no required flag, so it is not
examined here. -/
def validateEvent (e : EventDoc) : Bool :=
  validString e.title && validString e.description && validString e.overview &&
  validString e.image && validString e.venue && validString e.location &&
  dateValidatorOk e.date && validString e.time &&
  (e.mode == "online" || e.mode == "offline" || e.mode == "hybrid") &&
  validString e.audience && !e.agenda.isEmpty && validString e.organizer &&
  !e.tags.isEmpty

/-- Embedding of `normalizeTime` (src/unnamed/part_000, lines 202-204). -/
def normalizeTime (t : String) : String :=
  jsTrim t

/-- Embedding of the Event `pre('save')` hook (src/unnamed/part_000,
lines 210-233): regenerate the slug when the title changed or the
document is new, normalize the date when it changed (propagating a
normalization failure through `next(error)`), trim the time when it
changed. -/
def eventPreSaveHook (isNew mTitle mDate mTime : Bool) (e : EventDoc) :
    Except String EventDoc :=
  let e1 := if mTitle || isNew then { e with slug := generateSlug e.title } else e
  match (if mDate then normalizeDate e1.date else .ok e1.date) with
  | .error msg => .error msg
  | .ok d =>
    let e2 := { e1 with date := d }
    .ok (if mTime then { e2 with time := normalizeTime e2.time } else e2)

/-- Failure values surfaced by the modelled Event save. -/
inductive EventSaveError where
  | validationError
  | hookError (msg : String)
  | duplicateSlug
deriving DecidableEq, Repr

/-- Model of the mongoose `save()` lifecycle for the Event model.
Mongoose runs document validation as a built-in hook that precedes
every user `pre('save')` hook (its middleware documentation: validate
hooks run before any user save hooks), so the declared validators
examine the document BEFORE `eventPreSaveHook` rewrites it; a
validation failure or hook failure aborts with the stored state
untouched; otherwise the write hits the unique index on `slug`
(src/unnamed/part_000, lines 39-44 and 235-236), which rejects a
duplicate with a uniqueness violation and no write. -/
def saveEvent (store : List EventDoc) (isNew mTitle mDate mTime : Bool)
    (e : EventDoc) : Except EventSaveError EventDoc × List EventDoc :=
  if validateEvent e then
    match eventPreSaveHook isNew mTitle mDate mTime e with
    | .error msg => (.error (.hookError msg), store)
    | .ok e2 =>
      if store.any (fun x => x.slug == e2.slug) then (.error .duplicateSlug, store)
      else (.ok e2, store ++ [e2])
  else (.error .validationError, store)

/-! ## Booking schema, email validator and save lifecycle -/

/-- Field content of a Booking document
(src/database/booking.model.ts, lines 17-43); the `ObjectId` reference
is modelled as a natural number. -/
structure BookingDoc where
  eventId : Nat
  email : String
deriving DecidableEq, Repr

/-- Character class `[^\s@]` of the email regex. -/
def isAtomChar (c : Char) : Bool :=
  !(c == '@') && !(isJsSpace c)

/-- True when the list contains a `.` that is not its last element. -/
def hasDotNotLast : List Char → Bool
  | [] => false
  | [_] => false
  | c :: rest => c == '.' || hasDotNotLast rest

/-- True when the list contains a `.` that is neither first nor last. -/
def hasInteriorDot : List Char → Bool
  | [] => false
  | _ :: rest => hasDotNotLast rest

/-- Match of `[^\s@]+\.[^\s@]+$`: all atom characters with a dot that
has at least one character on each side. -/
def afterAtOk (w : List Char) : Bool :=
  w.all isAtomChar && hasInteriorDot w

/-- Match of the remainder `[^\s@]*@[^\s@]+\.[^\s@]+$` after at least
one atom character has been consumed. -/
def consumeLocal : List Char → Bool
  | [] => false
  | c :: rest => if c == '@' then afterAtOk rest else isAtomChar c && consumeLocal rest

/-- Embedding of the email validator regex
`/^[^\s@]+@[^\s@]+\.[^\s@]+$/` (src/database/booking.model.ts,
line 33).  Since `[^\s@]` excludes `@`, the regex accepts exactly the
strings of shape `local@domain` where `local` is a non-empty run of
atom characters and `domain` is a non-empty run of atom characters
containing an interior dot. -/
def emailRegexTest (s : String) : Bool :=
  match s.data with
  | [] => false
  | c :: rest => isAtomChar c && consumeLocal rest

/-- Model of the mongoose `lowercase: true` and `trim: true` setters on
the `email` path, applied when the value is assigned, hence before
validation and storage. -/
def normalizeEmail (s : String) : String :=
  String.mk ((trimList s.data).map jsToLower)

/-- Model of the mongoose `save()` lifecycle for the Booking model.
The email setters apply on assignment; validation (the declared email
validator) runs before the user `pre('save')` hook; the hook
(src/database/booking.model.ts, lines 49-67) looks the referenced
Event up by id and calls `next` with an error naming the id when it is
absent, which aborts the save before anything is written.  The Event
store is modelled by the list of stored Event ids; the lookup itself
is total in the model, so the wrapped-infrastructure-error branch of
the hook is not modelled. -/
def saveBooking (eventIds : List Nat) (store : List BookingDoc)
    (b : BookingDoc) : Except String BookingDoc × List BookingDoc :=
  let nb : BookingDoc := { b with email := normalizeEmail b.email }
  if emailRegexTest nb.email then
    if eventIds.contains nb.eventId then (.ok nb, store ++ [nb])
    else (.error ("Event with ID " ++ toString nb.eventId ++ " does not exist"), store)
  else (.error "Please provide a valid email address", store)

example : emailRegexTest "user@example.com" = true := by decide
example : emailRegexTest "a@b" = false := by decide
example : emailRegexTest "a@b.c" = true := by decide
example : emailRegexTest "a b@c.d" = false := by decide
example : normalizeEmail "  USER@Example.COM " = "user@example.com" := by decide

/-! ## Connection manager -/

/-- Model of the process-wide mongoose connection cache
(src/unnamed/part_001, lines 7-31): the cached handle and the cached
connection promise.  Handles are modelled as natural numbers; the
cached promise is modelled by its eventual resolution. -/
structure MongooseCache where
  conn : Option Nat
  promise : Option (Except String Nat)
deriving Repr

/-- Big-step model of one `connectDB()` call (src/unnamed/part_001,
lines 68-114) for a single caller: `uriDefined` models the presence of
the `MONGODB_URI` environment variable and `attempt` the outcome of
the underlying `mongoose.connect(uri)` call.  A cached handle returns
immediately; a cached promise is returned as-is (line 79, outside the
`try`); otherwise a fresh attempt runs: on success the `then` callback
caches the handle — and the promise field keeps the resolved promise —
while on failure the promise field is cleared and a wrapped error is
thrown. -/
def connectDB (cache : MongooseCache) (uriDefined : Bool)
    (attempt : Except String Nat) : Except String Nat × MongooseCache :=
  match cache.conn with
  | some c => (.ok c, cache)
  | none =>
    match cache.promise with
    | some p => (p, cache)
    | none =>
      if uriDefined then
        match attempt with
        | .ok inst => (.ok inst, ⟨some inst, some (.ok inst)⟩)
        | .error e =>
          (.error ("Failed to connect to MongoDB: " ++ e), ⟨none, none⟩)
      else
        (.error "Please define the MONGODB_URI environment variable inside .env.local",
         cache)

/-- Connection-manager state for the interleaving model: the cache
plus a counter of underlying `mongoose.connect` invocations.  Promises
are modelled by identifiers. -/
structure ConnState where
  conn : Option Nat
  promise : Option Nat
  attempts : Nat
deriving DecidableEq, Repr

/-- Outcome of the synchronous head of one `connectDB()` call. -/
inductive ConnCallStep where
  | immediate (h : Nat)
  | joinWait (pid : Nat)
  | startWait (pid : Nat)
  | configFail
deriving DecidableEq, Repr

/-- Small-step model of the synchronous head of `connectDB()`
(src/unnamed/part_001, lines 68-90): everything up to the first
`await` runs atomically on the JavaScript event loop.  A cached handle
answers immediately; an in-flight promise is joined; otherwise, when
the URI is configured, a fresh promise is installed in the cache and
the underlying connection attempt is counted. -/
def connectSyncHead (st : ConnState) (uriDefined : Bool) (fresh : Nat) :
    ConnCallStep × ConnState :=
  match st.conn with
  | some c => (.immediate c, st)
  | none =>
    match st.promise with
    | some p => (.joinWait p, st)
    | none =>
      if uriDefined then (.startWait fresh, ⟨none, some fresh, st.attempts + 1⟩)
      else (.configFail, st)

/-- Value a suspended caller receives once the promise with identifier
`resolvedPid` resolves to the handle `h` (promise semantics: every
awaiter of one promise receives its single resolution). -/
def awaitOutcome (step : ConnCallStep) (resolvedPid h : Nat) : Option Nat :=
  match step with
  | .immediate c => some c
  | .joinWait p => if p == resolvedPid then some h else none
  | .startWait p => if p == resolvedPid then some h else none
  | .configFail => none

/-! ## Properties of the slug pipeline -/

/-- Characters the slug pipeline can actually emit: lowercase ASCII
letters, digits, underscore (code 95) and hyphen (code 45). -/
def isSlugChar (c : Char) : Bool :=
  (97 ≤ c.toNat && c.toNat ≤ 122) || (48 ≤ c.toNat && c.toNat ≤ 57) ||
  c.toNat == 95 || c.toNat == 45

/-- Character class `[a-z0-9-]` that the specification asserts for slug
output. -/
def isClaimedSlugChar (c : Char) : Bool :=
  (97 ≤ c.toNat && c.toNat ≤ 122) || (48 ≤ c.toNat && c.toNat ≤ 57) ||
  c.toNat == 45

/-- First character, if any, is not a hyphen. -/
def headNotHyphen : List Char → Bool
  | [] => true
  | c :: _ => !(c == '-')

/-- Last character, if any, is not a hyphen. -/
def lastNotHyphen : List Char → Bool
  | [] => true
  | [c] => !(c == '-')
  | _ :: c' :: rest => lastNotHyphen (c' :: rest)

/-- No two consecutive hyphens anywhere in the list. -/
def noAdjHyphens : List Char → Bool
  | a :: b :: t => !(a == '-' && b == '-') && noAdjHyphens (b :: t)
  | _ => true

/-- Conjunction of the shape properties of slug output: allowed
character set, no leading hyphen, no trailing hyphen, no two
consecutive hyphens. -/
def slugInvariant (l : List Char) : Bool :=
  l.all isSlugChar && headNotHyphen l && lastNotHyphen l && noAdjHyphens l

theorem charOfNat_toNat_mid (n : Nat) (h1 : 97 ≤ n) (h2 : n ≤ 122) :
    (Char.ofNat n).toNat = n := by
  interval_cases n <;> rfl

theorem jsToLower_not_upper (c : Char) :
    (jsToLower c).toNat < 65 ∨ 90 < (jsToLower c).toNat := by
  unfold jsToLower
  split
  case isTrue h =>
    simp only [Bool.and_eq_true, decide_eq_true_eq] at h
    rw [charOfNat_toNat_mid (c.toNat + 32) (by omega) (by omega)]
    omega
  case isFalse h =>
    simp only [Bool.and_eq_true, decide_eq_true_eq, not_and, not_le] at h
    rcases Nat.lt_or_ge c.toNat 65 with h1 | h1
    · exact Or.inl h1
    · exact Or.inr (h h1)

theorem mem_dropTrailing {p : Char → Bool} {l : List Char} {a : Char}
    (h : a ∈ dropTrailing p l) : a ∈ l := by
  induction l with
  | nil => simp [dropTrailing] at h
  | cons c rest ih =>
    unfold dropTrailing at h
    cases hr : dropTrailing p rest with
    | nil =>
      rw [hr] at h
      by_cases hp : p c = true <;> simp [hp] at h
      simp [h]
    | cons o os =>
      rw [hr] at h
      rcases List.mem_cons.mp h with h1 | h2
      · simp [h1]
      · exact List.mem_cons_of_mem c (ih (hr ▸ h2))

theorem mem_trimList {l : List Char} {a : Char} (h : a ∈ trimList l) : a ∈ l :=
  (List.dropWhile_sublist isJsSpace).mem (mem_dropTrailing h)

theorem collapseRuns_cons_neg (p : Char → Bool) (r c : Char) (l : List Char)
    (h : p c = false) :
    collapseRuns p r (c :: l) = c :: collapseRuns p r l := by
  cases l <;> simp [collapseRuns, h]

theorem mem_collapseRuns {p : Char → Bool} {r : Char} {l : List Char} {a : Char}
    (h : a ∈ collapseRuns p r l) : a = r ∨ (a ∈ l ∧ p a = false) := by
  induction l with
  | nil => simp [collapseRuns] at h
  | cons c rest ih =>
    cases rest with
    | nil =>
      by_cases hp : p c = true
      · simp [collapseRuns, hp] at h
        exact Or.inl h
      · simp only [Bool.not_eq_true] at hp
        simp [collapseRuns, hp] at h
        subst h
        exact Or.inr ⟨List.mem_singleton.mpr rfl, hp⟩
    | cons c' rest' =>
      by_cases hp : p c = true
      · by_cases hp' : p c' = true
        · simp only [collapseRuns, hp, hp', if_true] at h
          rcases ih h with h1 | ⟨h2, h3⟩
          · exact Or.inl h1
          · exact Or.inr ⟨List.mem_cons_of_mem c h2, h3⟩
        · simp only [Bool.not_eq_true] at hp'
          simp only [collapseRuns, hp, hp', if_true, Bool.false_eq_true, if_false] at h
          rcases List.mem_cons.mp h with h1 | h2
          · exact Or.inl h1
          · rcases ih h2 with h3 | ⟨h4, h5⟩
            · exact Or.inl h3
            · exact Or.inr ⟨List.mem_cons_of_mem c h4, h5⟩
      · simp only [Bool.not_eq_true] at hp
        simp only [collapseRuns, hp, Bool.false_eq_true, if_false] at h
        rcases List.mem_cons.mp h with h1 | h2
        · exact Or.inr ⟨h1 ▸ List.mem_cons_self c (c' :: rest'), h1 ▸ hp⟩
        · rcases ih h2 with h3 | ⟨h4, h5⟩
          · exact Or.inl h3
          · exact Or.inr ⟨List.mem_cons_of_mem c h4, h5⟩

theorem isSlugChar_of_keep (c : Char)
    (hup : c.toNat < 65 ∨ 90 < c.toNat)
    (hkeep : (isWordChar c || isJsSpace c || c == '-') = true)
    (hsp : isJsSpace c = false) : isSlugChar c = true := by
  simp only [Bool.or_eq_true] at hkeep
  rcases hkeep with (hw | hs) | hh
  · simp only [isWordChar, Bool.or_eq_true, Bool.and_eq_true, decide_eq_true_eq,
      Nat.beq_eq_true_eq] at hw
    simp only [isSlugChar, Bool.or_eq_true, Bool.and_eq_true, decide_eq_true_eq,
      Nat.beq_eq_true_eq]
    omega
  · rw [hs] at hsp
    simp at hsp
  · have : c = '-' := by simpa [beq_iff_eq] using hh
    rw [this]
    decide

theorem all_isSlugChar_generateSlug (T : String) :
    ((generateSlug T).data).all isSlugChar = true := by
  unfold generateSlug
  simp only [String.data]
  rw [List.all_eq_true]
  intro c hc
  have hc5 := mem_dropTrailing hc
  have hc4 := (List.dropWhile_sublist (fun c => c == '-')).mem hc5
  rcases mem_collapseRuns hc4 with rfl | ⟨hc3, _⟩
  · decide
  rcases mem_collapseRuns hc3 with rfl | ⟨hc2, hsp⟩
  · decide
  have hkeep := List.of_mem_filter hc2
  have hc1 := List.mem_of_mem_filter hc2
  have hc0 := mem_trimList hc1
  rcases List.mem_map.mp hc0 with ⟨c0, _, rfl⟩
  exact isSlugChar_of_keep _ (jsToLower_not_upper c0) hkeep hsp

theorem char_eq_of_toNat_eq {c d : Char} (h : c.toNat = d.toNat) : c = d := by
  rw [← Char.ofNat_toNat c, ← Char.ofNat_toNat d, h]

theorem headNotHyphen_dropWhile (l : List Char) :
    headNotHyphen (l.dropWhile (fun c => c == '-')) = true := by
  induction l with
  | nil => rfl
  | cons c t ih =>
    by_cases h : (c == '-') = true
    · simpa [List.dropWhile, h] using ih
    · rw [Bool.not_eq_true] at h
      simp [List.dropWhile, h, headNotHyphen]

theorem dropTrailing_head_shape (p : Char → Bool) (c : Char) (rest : List Char) :
    dropTrailing p (c :: rest) = [] ∨
      ∃ t, dropTrailing p (c :: rest) = c :: t := by
  unfold dropTrailing
  cases hr : dropTrailing p rest with
  | nil =>
    by_cases h : p c = true
    · simp [h]
    · rw [Bool.not_eq_true] at h
      simp [h]
  | cons o os => exact Or.inr ⟨o :: os, rfl⟩

theorem headNotHyphen_dropTrailing (p : Char → Bool) (l : List Char)
    (h : headNotHyphen l = true) : headNotHyphen (dropTrailing p l) = true := by
  cases l with
  | nil => rfl
  | cons c rest =>
    rcases dropTrailing_head_shape p c rest with he | ⟨t, ht⟩
    · rw [he]; rfl
    · rw [ht]
      exact h

theorem lastNotHyphen_dropTrailing (l : List Char) :
    lastNotHyphen (dropTrailing (fun c => c == '-') l) = true := by
  induction l with
  | nil => rfl
  | cons c rest ih =>
    unfold dropTrailing
    cases hr : dropTrailing (fun c => c == '-') rest with
    | nil =>
      by_cases h : (c == '-') = true
      · simp [h, lastNotHyphen]
      · rw [Bool.not_eq_true] at h
        simp [h, lastNotHyphen]
    | cons o os =>
      rw [hr] at ih
      simpa [lastNotHyphen] using ih

theorem noAdjHyphens_tail (a : Char) (t : List Char)
    (h : noAdjHyphens (a :: t) = true) : noAdjHyphens t = true := by
  cases t with
  | nil => rfl
  | cons b t' =>
    simp only [noAdjHyphens, Bool.and_eq_true] at h
    exact h.2

theorem noAdjHyphens_cons (c : Char) (t : List Char)
    (hc : (c == '-') = false) (ht : noAdjHyphens t = true) :
    noAdjHyphens (c :: t) = true := by
  cases t with
  | nil => rfl
  | cons b t' => simp [noAdjHyphens, hc, ht]

theorem noAdj_collapseHyphens (l : List Char) :
    noAdjHyphens (collapseRuns (fun c => c == '-') '-' l) = true := by
  induction l with
  | nil => rfl
  | cons c rest ih =>
    cases rest with
    | nil =>
      by_cases h : (c == '-') = true
      · simp [collapseRuns, h, noAdjHyphens]
      · rw [Bool.not_eq_true] at h
        simp [collapseRuns, h, noAdjHyphens]
    | cons c' rest' =>
      by_cases h : (c == '-') = true
      · by_cases h' : (c' == '-') = true
        · simpa only [collapseRuns, h, h', if_true] using ih
        · rw [Bool.not_eq_true] at h'
          have hstep : collapseRuns (fun c => c == '-') '-' (c :: c' :: rest') =
              '-' :: collapseRuns (fun c => c == '-') '-' (c' :: rest') := by
            simp [collapseRuns, h, h']
          rw [hstep, collapseRuns_cons_neg _ '-' c' rest' h']
          rw [collapseRuns_cons_neg _ '-' c' rest' h'] at ih
          simp [noAdjHyphens, h', ih]
      · rw [Bool.not_eq_true] at h
        rw [collapseRuns_cons_neg _ '-' c (c' :: rest') h]
        exact noAdjHyphens_cons c _ h ih

theorem noAdj_dropWhile (p : Char → Bool) (l : List Char)
    (h : noAdjHyphens l = true) : noAdjHyphens (l.dropWhile p) = true := by
  induction l with
  | nil => rfl
  | cons c t ih =>
    by_cases hp : p c = true
    · rw [List.dropWhile_cons_of_pos hp]
      exact ih (noAdjHyphens_tail c t h)
    · rw [Bool.not_eq_true] at hp
      simpa [List.dropWhile, hp] using h

theorem noAdj_dropTrailing (p : Char → Bool) (l : List Char)
    (h : noAdjHyphens l = true) : noAdjHyphens (dropTrailing p l) = true := by
  induction l with
  | nil => rfl
  | cons c rest ih =>
    unfold dropTrailing
    cases hr : dropTrailing p rest with
    | nil =>
      by_cases hp : p c = true
      · simp [hp, noAdjHyphens]
      · rw [Bool.not_eq_true] at hp
        simp [hp, noAdjHyphens]
    | cons o os =>
      cases rest with
      | nil => simp [dropTrailing] at hr
      | cons c'' rest'' =>
        have ht := ih (noAdjHyphens_tail c _ h)
        rw [hr] at ht
        rcases dropTrailing_head_shape p c'' rest'' with he | ⟨t, hts⟩
        · rw [he] at hr
          cases hr
        · rw [hts] at hr
          injection hr with ho _
          subst ho
          simp only [noAdjHyphens, Bool.and_eq_true]
          refine ⟨?_, ht⟩
          simp only [noAdjHyphens, Bool.and_eq_true] at h
          exact h.1

theorem slugInvariant_generateSlug (T : String) :
    slugInvariant (generateSlug T).data = true := by
  have hall := all_isSlugChar_generateSlug T
  unfold generateSlug at hall ⊢
  simp only [String.data] at hall ⊢
  unfold slugInvariant
  rw [hall]
  have hna := noAdj_collapseHyphens
    (collapseRuns isJsSpace '-'
      (List.filter (fun c => isWordChar c || isJsSpace c || c == '-')
        (trimList (T.data.map jsToLower))))
  have h5na := noAdj_dropWhile (fun c => c == '-') _ hna
  have h6na := noAdj_dropTrailing (fun c => c == '-') _ h5na
  have h5h := headNotHyphen_dropWhile
    (collapseRuns (fun c => c == '-') '-'
      (collapseRuns isJsSpace '-'
        (List.filter (fun c => isWordChar c || isJsSpace c || c == '-')
          (trimList (T.data.map jsToLower)))))
  have h6h := headNotHyphen_dropTrailing (fun c => c == '-') _ h5h
  have h6l := lastNotHyphen_dropTrailing
    ((collapseRuns (fun c => c == '-') '-'
      (collapseRuns isJsSpace '-'
        (List.filter (fun c => isWordChar c || isJsSpace c || c == '-')
          (trimList (T.data.map jsToLower))))).dropWhile (fun c => c == '-'))
  rw [h6h, h6l, h6na]
  rfl

/-! ## Identity of each pipeline stage on slug output (idempotence) -/

theorem jsToLower_eq_self_of_slug (c : Char) (h : isSlugChar c = true) :
    jsToLower c = c := by
  unfold jsToLower
  split
  case isTrue h2 =>
    exfalso
    simp only [Bool.and_eq_true, decide_eq_true_eq] at h2
    simp only [isSlugChar, Bool.or_eq_true, Bool.and_eq_true, decide_eq_true_eq,
      Nat.beq_eq_true_eq] at h
    omega
  case isFalse h2 => rfl

theorem isJsSpace_false_of_slug (c : Char) (h : isSlugChar c = true) :
    isJsSpace c = false := by
  cases hb : isJsSpace c with
  | false => rfl
  | true =>
    exfalso
    simp only [isJsSpace, Bool.or_eq_true, beq_iff_eq] at hb
    rcases hb with ((((((rfl | rfl) | rfl) | rfl) | rfl) | rfl) | rfl) | rfl <;>
      revert h <;> decide

theorem keep_of_slug (c : Char) (h : isSlugChar c = true) :
    (isWordChar c || isJsSpace c || c == '-') = true := by
  simp only [Bool.or_eq_true]
  simp only [isSlugChar, Bool.or_eq_true, Bool.and_eq_true, decide_eq_true_eq,
    Nat.beq_eq_true_eq] at h
  rcases h with ((hl | hd) | hu) | hh
  · exact Or.inl (Or.inl (by
      simp only [isWordChar, Bool.or_eq_true, Bool.and_eq_true, decide_eq_true_eq,
        Nat.beq_eq_true_eq]
      omega))
  · exact Or.inl (Or.inl (by
      simp only [isWordChar, Bool.or_eq_true, Bool.and_eq_true, decide_eq_true_eq,
        Nat.beq_eq_true_eq]
      omega))
  · exact Or.inl (Or.inl (by
      simp only [isWordChar, Bool.or_eq_true, Bool.and_eq_true, decide_eq_true_eq,
        Nat.beq_eq_true_eq]
      omega))
  · have hc : c = '-' := char_eq_of_toNat_eq (by rw [hh]; rfl)
    subst hc
    exact Or.inr (by decide)

theorem map_eq_self_of {l : List Char} {f : Char → Char}
    (h : ∀ c ∈ l, f c = c) : l.map f = l := by
  induction l with
  | nil => rfl
  | cons c t ih =>
    simp only [List.map_cons, h c (List.mem_cons_self c t),
      ih (fun d hd => h d (List.mem_cons_of_mem c hd))]

theorem dropWhile_eq_self_of {p : Char → Bool} {l : List Char}
    (h : ∀ c ∈ l, p c = false) : l.dropWhile p = l := by
  cases l with
  | nil => rfl
  | cons c t => simp [List.dropWhile, h c (List.mem_cons_self c t)]

theorem dropTrailing_eq_self_of {p : Char → Bool} {l : List Char}
    (h : ∀ c ∈ l, p c = false) : dropTrailing p l = l := by
  induction l with
  | nil => rfl
  | cons c rest ih =>
    have hr : dropTrailing p rest = rest :=
      ih (fun d hd => h d (List.mem_cons_of_mem c hd))
    unfold dropTrailing
    rw [hr]
    cases rest with
    | nil => simp [h c (List.mem_cons_self c [])]
    | cons o os => rfl

theorem trimList_eq_self_of {l : List Char}
    (h : ∀ c ∈ l, isJsSpace c = false) : trimList l = l := by
  unfold trimList
  rw [dropWhile_eq_self_of h, dropTrailing_eq_self_of h]

theorem collapseRuns_eq_self_of {p : Char → Bool} {r : Char} {l : List Char}
    (h : ∀ c ∈ l, p c = false) : collapseRuns p r l = l := by
  induction l with
  | nil => rfl
  | cons c t ih =>
    rw [collapseRuns_cons_neg p r c t (h c (List.mem_cons_self c t))]
    rw [ih (fun d hd => h d (List.mem_cons_of_mem c hd))]

theorem collapseHyphens_eq_self_of {l : List Char}
    (h : noAdjHyphens l = true) :
    collapseRuns (fun c => c == '-') '-' l = l := by
  induction l with
  | nil => rfl
  | cons c rest ih =>
    cases rest with
    | nil =>
      by_cases hc : (c == '-') = true
      · have : c = '-' := by simpa [beq_iff_eq] using hc
        subst this
        rfl
      · rw [Bool.not_eq_true] at hc
        simp [collapseRuns, hc]
    | cons c' rest' =>
      by_cases hc : (c == '-') = true
      · have hc' : (c' == '-') = false := by
          simp only [noAdjHyphens, Bool.and_eq_true, Bool.not_eq_true'] at h
          rcases h with ⟨h1, _⟩
          simp only [Bool.and_eq_false_iff] at h1
          rcases h1 with h1 | h1
          · rw [hc] at h1
            cases h1
          · exact h1
        have hcdash : c = '-' := by simpa [beq_iff_eq] using hc
        have hstep : collapseRuns (fun c => c == '-') '-' (c :: c' :: rest') =
            '-' :: collapseRuns (fun c => c == '-') '-' (c' :: rest') := by
          simp [collapseRuns, hc, hc']
        rw [hstep, ih (noAdjHyphens_tail c _ h), hcdash]
      · rw [Bool.not_eq_true] at hc
        rw [collapseRuns_cons_neg _ '-' c (c' :: rest') hc]
        rw [ih (noAdjHyphens_tail c _ h)]

theorem dropWhileHyphen_eq_self_of {l : List Char}
    (h : headNotHyphen l = true) : l.dropWhile (fun c => c == '-') = l := by
  cases l with
  | nil => rfl
  | cons c t =>
    simp only [headNotHyphen, Bool.not_eq_true'] at h
    simp [List.dropWhile, h]

theorem dropTrailingHyphen_eq_self_of {l : List Char}
    (h : lastNotHyphen l = true) : dropTrailing (fun c => c == '-') l = l := by
  induction l with
  | nil => rfl
  | cons c rest ih =>
    cases rest with
    | nil =>
      simp only [lastNotHyphen, Bool.not_eq_true'] at h
      simp [dropTrailing, h]
    | cons c' rest' =>
      have hr : dropTrailing (fun c => c == '-') (c' :: rest') = c' :: rest' :=
        ih (by simpa [lastNotHyphen] using h)
      unfold dropTrailing
      rw [hr]

theorem data_mk (l : List Char) : (String.mk l).data = l := rfl

theorem generateSlug_fix {s : String}
    (hinv : slugInvariant s.data = true) : generateSlug s = s := by
  simp only [slugInvariant, Bool.and_eq_true] at hinv
  obtain ⟨⟨⟨hall, hhead⟩, hlast⟩, hna⟩ := hinv
  have hmem : ∀ c ∈ s.data, isSlugChar c = true := List.all_eq_true.mp hall
  have hnospace : ∀ c ∈ s.data, isJsSpace c = false :=
    fun c hc => isJsSpace_false_of_slug c (hmem c hc)
  unfold generateSlug
  rw [map_eq_self_of (fun c hc => jsToLower_eq_self_of_slug c (hmem c hc))]
  rw [trimList_eq_self_of hnospace]
  rw [List.filter_eq_self.mpr (fun c hc => keep_of_slug c (hmem c hc))]
  rw [collapseRuns_eq_self_of hnospace]
  rw [collapseHyphens_eq_self_of hna]
  rw [dropWhileHyphen_eq_self_of hhead]
  rw [dropTrailingHyphen_eq_self_of hlast]


/-! ## Round trip of `normalizeDate` on strings matching the ISO regex -/

theorem digitChar_digitVal (c : Char) (h : isDigitChar c = true) :
    digitChar (digitVal c) = c := by
  simp only [isDigitChar, Bool.and_eq_true, decide_eq_true_eq] at h
  unfold digitChar digitVal
  rw [show 48 + (c.toNat - 48) = c.toNat from by omega]
  exact Char.ofNat_toNat c

theorem digitVal_lt (c : Char) (h : isDigitChar c = true) : digitVal c < 10 := by
  simp only [isDigitChar, Bool.and_eq_true, decide_eq_true_eq] at h
  unfold digitVal
  omega

theorem formatDate_digits (c1 c2 c3 c4 c5 c6 c7 c8 : Char)
    (h1 : isDigitChar c1 = true) (h2 : isDigitChar c2 = true)
    (h3 : isDigitChar c3 = true) (h4 : isDigitChar c4 = true)
    (h5 : isDigitChar c5 = true) (h6 : isDigitChar c6 = true)
    (h7 : isDigitChar c7 = true) (h8 : isDigitChar c8 = true) :
    formatDate
      ⟨1000 * digitVal c1 + 100 * digitVal c2 + 10 * digitVal c3 + digitVal c4,
       10 * digitVal c5 + digitVal c6, 10 * digitVal c7 + digitVal c8⟩ =
      String.mk [c1, c2, c3, c4, '-', c5, c6, '-', c7, c8] := by
  have b1 := digitVal_lt c1 h1
  have b2 := digitVal_lt c2 h2
  have b3 := digitVal_lt c3 h3
  have b4 := digitVal_lt c4 h4
  have b5 := digitVal_lt c5 h5
  have b6 := digitVal_lt c6 h6
  have b7 := digitVal_lt c7 h7
  have b8 := digitVal_lt c8 h8
  unfold formatDate
  simp only
  rw [show (1000 * digitVal c1 + 100 * digitVal c2 + 10 * digitVal c3 + digitVal c4)
        / 1000 = digitVal c1 from by omega]
  rw [show (1000 * digitVal c1 + 100 * digitVal c2 + 10 * digitVal c3 + digitVal c4)
        / 100 % 10 = digitVal c2 from by omega]
  rw [show (1000 * digitVal c1 + 100 * digitVal c2 + 10 * digitVal c3 + digitVal c4)
        / 10 % 10 = digitVal c3 from by omega]
  rw [show (1000 * digitVal c1 + 100 * digitVal c2 + 10 * digitVal c3 + digitVal c4)
        % 10 = digitVal c4 from by omega]
  rw [show (10 * digitVal c5 + digitVal c6) / 10 = digitVal c5 from by omega]
  rw [show (10 * digitVal c5 + digitVal c6) % 10 = digitVal c6 from by omega]
  rw [show (10 * digitVal c7 + digitVal c8) / 10 = digitVal c7 from by omega]
  rw [show (10 * digitVal c7 + digitVal c8) % 10 = digitVal c8 from by omega]
  rw [digitChar_digitVal c1 h1, digitChar_digitVal c2 h2, digitChar_digitVal c3 h3,
    digitChar_digitVal c4 h4, digitChar_digitVal c5 h5, digitChar_digitVal c6 h6,
    digitChar_digitVal c7 h7, digitChar_digitVal c8 h8]

theorem addDays_zero (c : CivilDate) : addDays c 0 = c := by
  simp [addDays]

/-- On any string matching `/^\d{4}-\d{2}-\d{2}$/`, `normalizeDate` is
the identity: if the parse succeeds it yields midnight UTC of the
written date and the UTC date part prints back the very same
characters, and if the parse fails (out-of-range fields) the regex
fallback returns the input verbatim. -/
theorem normalizeDate_isoRegex (s : String) (h : isoDateRegexTest s = true) :
    normalizeDate s = .ok s := by
  obtain ⟨l⟩ := s
  unfold normalizeDate
  cases hp : jsDateParse (String.mk l) with
  | none => simp [h]
  | some i =>
    unfold isoDateRegexTest at h
    simp only [data_mk] at h
    split at h
    case h_2 => cases h
    case h_1 c1 c2 c3 c4 c5 c6 c7 c8 =>
      simp only [Bool.and_eq_true] at h
      obtain ⟨⟨⟨⟨⟨⟨⟨h1, h2⟩, h3⟩, h4⟩, h5⟩, h6⟩, h7⟩, h8⟩ := h
      unfold jsDateParse at hp
      simp only [data_mk, h1, h2, h3, h4, h5, h6, h7, h8, Bool.and_self,
        if_true] at hp
      by_cases hv : validDate
          (1000 * digitVal c1 + 100 * digitVal c2 + 10 * digitVal c3 + digitVal c4)
          (10 * digitVal c5 + digitVal c6) (10 * digitVal c7 + digitVal c8) = true
      · rw [if_pos hv] at hp
        injection hp with hp
        subst hp
        unfold toISODatePart utcDate
        simp only
        rw [show Int.fdiv 0 86400000 = 0 from rfl, addDays_zero]
        rw [formatDate_digits c1 c2 c3 c4 c5 c6 c7 c8 h1 h2 h3 h4 h5 h6 h7 h8]
      · rw [if_neg hv] at hp
        cases hp

/-! ## Characterisation of the email regex -/

theorem hasDotNotLast_iff (v : List Char) :
    hasDotNotLast v = true ↔ ∃ m r, v = m ++ '.' :: r ∧ r ≠ [] := by
  induction v with
  | nil =>
    constructor
    · intro h
      cases h
    · rintro ⟨m, r, he, _⟩
      have hlen := congrArg List.length he
      simp at hlen
      omega
  | cons c rest ih =>
    cases rest with
    | nil =>
      constructor
      · intro h
        cases h
      · rintro ⟨m, r, he, hr⟩
        cases m with
        | nil =>
          injection he with _ h2
          exact absurd h2.symm hr
        | cons a m' =>
          injection he with _ h2
          have hlen := congrArg List.length h2
          simp at hlen
          omega
    | cons c' rest' =>
      simp only [hasDotNotLast, Bool.or_eq_true, beq_iff_eq]
      constructor
      · rintro (rfl | h)
        · exact ⟨[], c' :: rest', rfl, by simp⟩
        · obtain ⟨m, r, he, hr⟩ := ih.mp h
          exact ⟨c :: m, r, by rw [List.cons_append, ← he], hr⟩
      · rintro ⟨m, r, he, hr⟩
        cases m with
        | nil =>
          injection he with h1 _
          exact Or.inl h1
        | cons a m' =>
          injection he with _ h2
          exact Or.inr (ih.mpr ⟨m', r, h2, hr⟩)

theorem afterAtOk_iff (w : List Char) :
    afterAtOk w = true ↔
      ∃ m r, w = m ++ '.' :: r ∧ m ≠ [] ∧ r ≠ [] ∧
        (∀ c ∈ w, isAtomChar c = true) := by
  unfold afterAtOk hasInteriorDot
  cases w with
  | nil =>
    constructor
    · intro h
      simp at h
    · rintro ⟨m, r, he, hm, _, _⟩
      have hlen := congrArg List.length he
      simp at hlen
      omega
  | cons a w' =>
    rw [Bool.and_eq_true, List.all_eq_true, hasDotNotLast_iff]
    constructor
    · rintro ⟨hall, m, r, he, hr⟩
      exact ⟨a :: m, r, by rw [List.cons_append, ← he], by simp, hr, hall⟩
    · rintro ⟨m, r, he, hm, hr, hall⟩
      cases m with
      | nil => exact absurd rfl hm
      | cons b m' =>
        injection he with h1 h2
        exact ⟨hall, m', r, h2, hr⟩

theorem consumeLocal_iff (v : List Char) :
    consumeLocal v = true ↔
      ∃ l w, v = l ++ '@' :: w ∧ (∀ c ∈ l, isAtomChar c = true) ∧
        afterAtOk w = true := by
  induction v with
  | nil =>
    constructor
    · intro h
      cases h
    · rintro ⟨l, w, he, _, _⟩
      have hlen := congrArg List.length he
      simp at hlen
      omega
  | cons c rest ih =>
    unfold consumeLocal
    by_cases hc : (c == '@') = true
    · have hceq : c = '@' := by simpa [beq_iff_eq] using hc
      rw [if_pos hc]
      subst hceq
      constructor
      · intro h
        exact ⟨[], rest, rfl, by simp, h⟩
      · rintro ⟨l, w, he, hl, hw⟩
        cases l with
        | nil =>
          injection he with _ h2
          rwa [h2]
        | cons a l' =>
          injection he with h1 _
          have ha := hl a (List.mem_cons_self a l')
          rw [← h1] at ha
          exact absurd ha (by decide)
    · have hcf : (c == '@') = false := by rwa [Bool.not_eq_true] at hc
      rw [if_neg hc, Bool.and_eq_true, ih]
      constructor
      · rintro ⟨ha, l, w, he, hl, hw⟩
        refine ⟨c :: l, w, by rw [List.cons_append, ← he], ?_, hw⟩
        intro d hd
        rcases List.mem_cons.mp hd with rfl | hd'
        · exact ha
        · exact hl d hd'
      · rintro ⟨l, w, he, hl, hw⟩
        cases l with
        | nil =>
          injection he with h1 _
          rw [h1] at hcf
          exact absurd hcf (by decide)
        | cons a l' =>
          injection he with h1 h2
          subst h1
          exact ⟨hl c (List.mem_cons_self c l'), l', w, h2,
            fun d hd => hl d (List.mem_cons_of_mem c hd), hw⟩

/-- The email regex accepts exactly the strings of shape
`l ++ "@" ++ m ++ "." ++ r` with `l`, `m`, `r` non-empty runs of
characters that are neither whitespace nor `@`. -/
theorem emailRegexTest_iff (s : String) :
    emailRegexTest s = true ↔
      ∃ l m r : List Char,
        s.data = l ++ '@' :: (m ++ '.' :: r) ∧ l ≠ [] ∧ m ≠ [] ∧ r ≠ [] ∧
        (∀ c ∈ l, isAtomChar c = true) ∧ (∀ c ∈ m, isAtomChar c = true) ∧
        (∀ c ∈ r, isAtomChar c = true) := by
  unfold emailRegexTest
  cases hd : s.data with
  | nil =>
    constructor
    · intro h
      cases h
    · rintro ⟨l, m, r, he, _, _, _, _⟩
      have hlen := congrArg List.length he
      simp at hlen
      omega
  | cons c rest =>
    rw [Bool.and_eq_true, consumeLocal_iff]
    constructor
    · rintro ⟨hc, l, w, he, hl, hw⟩
      obtain ⟨m, r, hw2, hm, hr, hallw⟩ := (afterAtOk_iff w).mp hw
      refine ⟨c :: l, m, r, ?_, by simp, hm, hr, ?_, ?_, ?_⟩
      · rw [he, hw2, List.cons_append]
      · intro d hd2
        rcases List.mem_cons.mp hd2 with rfl | hd3
        · exact hc
        · exact hl d hd3
      · intro d hd2
        exact hallw d (hw2 ▸ List.mem_append_left _ hd2)
      · intro d hd2
        exact hallw d (hw2 ▸ List.mem_append_right _
          (List.mem_cons_of_mem '.' hd2))
    · rintro ⟨l, m, r, he, hlne, hm, hr, hl, hmall, hrall⟩
      cases l with
      | nil => exact absurd rfl hlne
      | cons a l' =>
        injection he with h1 h2
        subst h1
        refine ⟨hl c (List.mem_cons_self c l'), l', m ++ '.' :: r, h2,
          fun d hd2 => hl d (List.mem_cons_of_mem c hd2), ?_⟩
        rw [afterAtOk_iff]
        refine ⟨m, r, rfl, hm, hr, ?_⟩
        intro d hd3
        rcases List.mem_append.mp hd3 with h4 | h4
        · exact hmall d h4
        · rcases List.mem_cons.mp h4 with rfl | h5
          · decide
          · exact hrall d h5

/-- Modelled from the spec: the email pattern the specification
describes in words — a non-empty local part, `@`, a non-empty domain
part, and no embedded whitespace anywhere.  This definition follows
the wording of the spec, to be compared with `emailRegexTest`, which
is the embedding of the regex in the source. -/
def specEmailOk (s : String) : Prop :=
  ∃ l d : List Char, s.data = l ++ '@' :: d ∧ l ≠ [] ∧ d ≠ [] ∧
    ∀ c ∈ s.data, isJsSpace c = false

/-! ## Save-lifecycle helper lemmas -/

theorem validateEvent_date {e : EventDoc} (h : validateEvent e = true) :
    dateValidatorOk e.date = true := by
  simp only [validateEvent, Bool.and_eq_true] at h
  exact h.1.1.1.1.1.1.2

theorem eventPreSaveHook_create (e : EventDoc)
    (hd : dateValidatorOk e.date = true) :
    eventPreSaveHook true true true true e =
      .ok { e with slug := generateSlug e.title, time := normalizeTime e.time } := by
  have hreg : isoDateRegexTest e.date = true := by
    have h2 := hd
    simp only [dateValidatorOk, Bool.and_eq_true] at h2
    exact h2.1
  have hnd := normalizeDate_isoRegex e.date hreg
  unfold eventPreSaveHook
  simp [hnd]

theorem saveEvent_create_ok (store : List EventDoc) (e : EventDoc)
    (hv : validateEvent e = true)
    (hfresh : store.any (fun x => x.slug == generateSlug e.title) = false) :
    saveEvent store true true true true e =
      (.ok { e with slug := generateSlug e.title, time := normalizeTime e.time },
       store ++ [{ e with slug := generateSlug e.title, time := normalizeTime e.time }]) := by
  unfold saveEvent
  rw [if_pos hv, eventPreSaveHook_create e (validateEvent_date hv)]
  dsimp only
  rw [if_neg (by rw [hfresh]; exact Bool.false_ne_true)]

/-- Field-complete Event document used for concrete save scenarios:
every validator-checked field is populated with a valid value, with the
title and date supplied by the caller. -/
def mkTestEvent (t d : String) : EventDoc :=
  { title := t, slug := "", description := "A description",
    overview := "An overview", image := "/images/event.png",
    venue := "Main Hall", location := "Berlin, Germany", date := d,
    time := "9:00 AM CET", mode := "online", audience := "Developers",
    agenda := ["Keynote"], organizer := "Org", tags := ["dev"] }

/-! ## Claim theorems -/

/-- C1 counterexample: the date-time string
`2025-10-21T01:00:00+05:00` is parseable and denotes the written
calendar date 2025-10-21, yet `normalizeDate` returns `2025-10-20` —
the UTC date of the denoted instant — which is a different calendar
date, so the claim that the result always represents the same calendar
date as the input is false. -/
theorem C1_counterexample :
    jsDateParse "2025-10-21T01:00:00+05:00" =
      some ⟨⟨2025, 10, 21⟩, -14400000⟩ ∧
    normalizeDate "2025-10-21T01:00:00+05:00" = .ok "2025-10-20" ∧
    ("2025-10-20" : String) ≠ "2025-10-21" :=
  ⟨rfl, rfl, by decide⟩

/-- C1 (amended): on every string that already matches
`/^\d{4}-\d{2}-\d{2}$/`, `normalizeDate` returns the input unchanged
(for other parseable representations it returns the calendar date of
the denoted instant in UTC, which can be the adjacent day when the
string carries a non-zero UTC offset). -/
theorem C1_amended (s : String) (h : isoDateRegexTest s = true) :
    normalizeDate s = .ok s :=
  normalizeDate_isoRegex s h

/-- C1 witness: the amended theorem applied to the concrete ISO date
string `2026-02-17`. -/
theorem C1_witness :
    isoDateRegexTest "2026-02-17" = true ∧
    normalizeDate "2026-02-17" = .ok "2026-02-17" :=
  ⟨by decide, C1_amended "2026-02-17" (by decide)⟩

/-- C2: a fully-valid Event whose date is supplied in the parseable but
non-ISO form `2025-10-21T00:00:00Z` fails the save with a validation
error and nothing is stored, even though `normalizeDate` would map the
value to `2025-10-21`, which the date validator accepts: mongoose runs
the declared validators before the user `pre('save')` hook, so the
validators examine the raw value and the normalization in the hook is
unreachable for values the validator rejects. -/
theorem C2_validation_precedes_hook :
    saveEvent [] true true true true (mkTestEvent "DevConf" "2025-10-21T00:00:00Z") =
      (.error .validationError, []) ∧
    normalizeDate "2025-10-21T00:00:00Z" = .ok "2025-10-21" ∧
    dateValidatorOk "2025-10-21" = true ∧
    dateValidatorOk "2025-10-21T00:00:00Z" = false :=
  ⟨rfl, rfl, rfl, rfl⟩

/-- C3 counterexample: `generateSlug "a_b"` returns `"a_b"`, which
contains an underscore, a character outside the `[a-z0-9-]` set the
claim asserts (the regex class `\w` kept by the pipeline includes the
underscore). -/
theorem C3_counterexample :
    generateSlug "a_b" = "a_b" ∧
    ((generateSlug "a_b").data.all isClaimedSlugChar) = false :=
  ⟨by decide, by decide⟩

/-- C3 (amended): for every title, every character of the slug is in
`[a-z0-9_-]` (so in particular the slug is lowercase), and the slug
has no leading hyphen, no trailing hyphen, and no two consecutive
hyphens. -/
theorem C3_amended (T : String) :
    slugInvariant (generateSlug T).data = true :=
  slugInvariant_generateSlug T

/-- C4: slug generation is idempotent — applying `generateSlug` to its
own output returns it unchanged. -/
theorem C4_slug_idempotent (T : String) :
    generateSlug (generateSlug T) = generateSlug T :=
  generateSlug_fix (slugInvariant_generateSlug T)

/-- C5: for two Event creates whose field values pass validation and
whose titles generate the same slug, when the store holds no event with
that slug the first create succeeds and stores the document, and the
second create then fails with the uniqueness violation of the unique
slug index, leaving the store unchanged. -/
theorem C5_duplicate_slug (store : List EventDoc) (e1 e2 : EventDoc)
    (hv1 : validateEvent e1 = true)
    (hfresh : store.any (fun x => x.slug == generateSlug e1.title) = false)
    (hv2 : validateEvent e2 = true)
    (hslug : generateSlug e2.title = generateSlug e1.title) :
    saveEvent store true true true true e1 =
      (.ok { e1 with slug := generateSlug e1.title, time := normalizeTime e1.time },
       store ++ [{ e1 with slug := generateSlug e1.title, time := normalizeTime e1.time }]) ∧
    saveEvent
      (store ++ [{ e1 with slug := generateSlug e1.title, time := normalizeTime e1.time }])
      true true true true e2 =
      (.error .duplicateSlug,
       store ++ [{ e1 with slug := generateSlug e1.title, time := normalizeTime e1.time }]) := by
  constructor
  · exact saveEvent_create_ok store e1 hv1 hfresh
  · unfold saveEvent
    rw [if_pos hv2, eventPreSaveHook_create e2 (validateEvent_date hv2)]
    dsimp only
    rw [hslug]
    simp [List.any_append]

def c5First : EventDoc := mkTestEvent "Hello World" "2025-10-21"

def c5Second : EventDoc := mkTestEvent "hello world!" "2025-10-21"

def c5Stored : EventDoc :=
  { c5First with slug := generateSlug c5First.title, time := normalizeTime c5First.time }

/-- C5 witness: the duplicate-slug theorem applied to two concrete
creates whose titles `Hello World` and `hello world!` both slug to
`hello-world`. -/
theorem C5_witness :
    validateEvent c5First = true ∧
    (saveEvent [] true true true true c5First = (.ok c5Stored, [] ++ [c5Stored]) ∧
     saveEvent ([] ++ [c5Stored]) true true true true c5Second =
       (.error .duplicateSlug, [] ++ [c5Stored])) :=
  ⟨by decide,
   C5_duplicate_slug [] c5First c5Second (by decide) (by decide) (by decide) (by decide)⟩

/-- C6: a Booking whose email passes validation but whose `eventId` is
not among the stored Event ids fails with the reference error naming
that identifier, and the booking store is unchanged. -/
theorem C6_booking_ref_not_found (eventIds : List Nat)
    (store : List BookingDoc) (b : BookingDoc)
    (hvalid : emailRegexTest (normalizeEmail b.email) = true)
    (habsent : eventIds.contains b.eventId = false) :
    saveBooking eventIds store b =
      (.error ("Event with ID " ++ toString b.eventId ++ " does not exist"), store) := by
  unfold saveBooking
  dsimp only
  have habs2 : b.eventId ∉ eventIds := by simpa using habsent
  simp [hvalid, habs2]

/-- C6 witness: the reference-not-found theorem applied to a concrete
Booking with eventId 7 against an empty Event store. -/
theorem C6_witness :
    emailRegexTest (normalizeEmail "user@example.com") = true ∧
    saveBooking [] [] ⟨7, "user@example.com"⟩ =
      (.error ("Event with ID " ++ toString (7 : Nat) ++ " does not exist"), []) :=
  ⟨by decide,
   C6_booking_ref_not_found [] [] ⟨7, "user@example.com"⟩ (by decide) (by decide)⟩

/-- C7 counterexample: `a@b` matches the pattern the spec describes
(non-empty local part, `@`, non-empty domain part, no whitespace), is
unchanged by the email normalization, and is rejected by the validator
regex, so validation does not accept exactly the spec pattern. -/
theorem C7_counterexample :
    specEmailOk "a@b" ∧ emailRegexTest "a@b" = false ∧
    normalizeEmail "a@b" = "a@b" :=
  ⟨⟨['a'], ['b'], rfl, by decide, by decide, by decide⟩, by decide, by decide⟩

/-- C7 (amended): the email validator accepts exactly the strings of
shape local `@` domain where the local part is non-empty, the domain
contains a dot with non-empty pieces on both sides, and no part
contains whitespace or a second `@`. -/
theorem C7_amended (s : String) :
    emailRegexTest s = true ↔
      ∃ l m r : List Char,
        s.data = l ++ '@' :: (m ++ '.' :: r) ∧ l ≠ [] ∧ m ≠ [] ∧ r ≠ [] ∧
        (∀ c ∈ l, isAtomChar c = true) ∧ (∀ c ∈ m, isAtomChar c = true) ∧
        (∀ c ∈ r, isAtomChar c = true) :=
  emailRegexTest_iff s

/-- C8 counterexample: after a successful fresh `connectDB()` call the
cache holds the handle, but the pending promise field still holds the
resolved promise — it is not cleared, contradicting the claim that the
pending marker is empty after success. -/
theorem C8_counterexample :
    (connectDB ⟨none, none⟩ true (.ok 0)).2.conn = some 0 ∧
    (connectDB ⟨none, none⟩ true (.ok 0)).2.promise = some (.ok 0) ∧
    some (Except.ok (0 : Nat)) ≠ (none : Option (Except String Nat)) :=
  ⟨rfl, rfl, by simp⟩

/-- C8 (amended): after a successful fresh `connectDB()` call the
cache holds the connection handle and the promise field keeps the
promise resolved to that same handle; only a failed attempt clears the
promise field. -/
theorem C8_amended (h : Nat) :
    connectDB ⟨none, none⟩ true (.ok h) = (.ok h, ⟨some h, some (.ok h)⟩) :=
  rfl

/-- C9: when a second `connectDB()` call runs its synchronous head
after the first installed the pending promise but before it resolved,
the first call starts the only underlying connection attempt (the
attempt counter is 1 after both calls), the second joins the same
promise, and on resolution both callers receive the same handle. -/
theorem C9_single_attempt (h : Nat) :
    (connectSyncHead ⟨none, none, 0⟩ true 0).1 = .startWait 0 ∧
    (connectSyncHead (connectSyncHead ⟨none, none, 0⟩ true 0).2 true 1).1 = .joinWait 0 ∧
    (connectSyncHead (connectSyncHead ⟨none, none, 0⟩ true 0).2 true 1).2.attempts = 1 ∧
    awaitOutcome (connectSyncHead ⟨none, none, 0⟩ true 0).1 0 h = some h ∧
    awaitOutcome (connectSyncHead (connectSyncHead ⟨none, none, 0⟩ true 0).2 true 1).1 0 h =
      some h :=
  ⟨rfl, rfl, rfl, rfl, rfl⟩

/-- C10: the non-empty title `!!!` consists only of characters the slug
pipeline strips, so its slug is the empty string, and since the schema
places no non-emptiness constraint on `slug` the Event save succeeds
and stores the document with an empty slug. -/
theorem C10_empty_slug :
    generateSlug "!!!" = "" ∧
    saveEvent [] true true true true (mkTestEvent "!!!" "2025-10-21") =
      (.ok { mkTestEvent "!!!" "2025-10-21" with
               slug := "", time := normalizeTime "9:00 AM CET" },
       [{ mkTestEvent "!!!" "2025-10-21" with
            slug := "", time := normalizeTime "9:00 AM CET" }]) ∧
    ({ mkTestEvent "!!!" "2025-10-21" with
         slug := "", time := normalizeTime "9:00 AM CET" } : EventDoc).slug = "" :=
  ⟨by decide, rfl, rfl⟩

end DevEvents
